import Mathlib

/-!
Verification of the request construction and response normalization pipeline
of `lib/graph.js` (a Facebook Graph API client).

The JavaScript source is shallowly embedded below.  JavaScript values that
can flow through the pipeline are modelled by `Js`; the callback pair
`(err, json)` delivered by `GraphStream.end` is modelled as
`Option CallErr × Option Js`.  External collaborators (the `request`
transport, `crypto.createHmac('sha256', ...)`, `JSON.parse`) are modelled as
parameters: the transport as a delivered event, the HMAC as a function
argument `hmacSha256Hex`, and `JSON.parse` as a function argument
`parse : String → Except String Js` (the `Except.error` case models a thrown
parse exception carrying its message).  Node's `url.parse(body, true).query`
and `String.prototype` operations are modelled executably over `String.data`.
-/

namespace FbGraph

/-- JavaScript values as they appear in this pipeline: strings, numbers,
booleans, `null`, arrays and plain objects (field lists). -/
inductive Js where
  | str (s : String)
  | num (n : Int)
  | bool (b : Bool)
  | null
  | arr (xs : List Js)
  | obj (fields : List (String × Js))

/-- JavaScript truthiness of a `Js` value: `""`, `0`, `false` and `null` are
falsy; every array and object (even empty) is truthy. -/
def jsTruthy : Js → Bool
  | .str s => s ≠ ""
  | .num n => n ≠ 0
  | .bool b => b
  | .null => false
  | .arr _ => true
  | .obj _ => true

/-- Property access `j[k]` on a `Js` value: `none` models `undefined`. -/
def jsProp (j : Js) (k : String) : Option Js :=
  match j with
  | .obj fields => fields.lookup k
  | _ => none

/-- Whether `pat` occurs as a contiguous run inside `l`
(JavaScript `indexOf(pat) !== -1`). -/
def listContains (pat : List Char) : List Char → Bool
  | [] => pat.isEmpty
  | c :: rest => pat.isPrefixOf (c :: rest) || listContains pat rest

/-- Number of positions of `l` at which `pat` occurs as a contiguous run. -/
def countOccs (pat : List Char) : List Char → Nat
  | [] => 0
  | c :: rest => (if pat.isPrefixOf (c :: rest) then 1 else 0) + countOccs pat rest

/-- JavaScript `s.indexOf(pat) !== -1` (substring containment). -/
def strContains (s pat : String) : Bool :=
  listContains pat.data s.data

/-- Number of occurrences of the substring `pat` in `s`. -/
def strCount (s pat : String) : Nat :=
  countOccs pat.data s.data

/-- JavaScript `s.substr(0, pre.length) === pre` / `charAt` style check:
whether `s` starts with `pre`. -/
def strStartsWith (s pre : String) : Bool :=
  pre.data.isPrefixOf s.data

/-- Whitespace characters removed by JavaScript `String.prototype.trim`
(the ASCII ones that can realistically occur in a path argument). -/
def jsWhitespace (c : Char) : Bool :=
  c = ' ' || c = '\t' || c = '\n' || c = '\r' || c = '\x0b' || c = '\x0c'

/-- JavaScript `url.trim()`: strip leading and trailing whitespace. -/
def jsTrim (s : String) : String :=
  ⟨((s.data.dropWhile jsWhitespace).reverse.dropWhile jsWhitespace).reverse⟩

/-- First-match extraction of the regex `/access_token=([^&]*)/` (for a
general pattern `pat` in place of `access_token=`): find the first
occurrence of `pat` and capture the following characters up to `&` or the
end of the string; `none` when `pat` does not occur. -/
def extractAfter (pat : List Char) : List Char → Option String
  | [] => none
  | c :: rest =>
      if pat.isPrefixOf (c :: rest) then
        some ⟨((c :: rest).drop pat.length).takeWhile (fun x => x ≠ '&')⟩
      else extractAfter pat rest

/-- The character list of the literal pattern `access_token=`. -/
def accessTokenChars : List Char :=
  ['a', 'c', 'c', 'e', 's', 's', '_', 't', 'o', 'k', 'e', 'n', '=']

/-- JavaScript truthiness of an access-token/app-secret slot: `undefined`,
`null` (both `none`) and the empty string are falsy. -/
def jsStrTruthy : Option String → Bool
  | some s => s ≠ ""
  | none => false

/-- Extract the string from a token slot after a truthiness guard. -/
def optStr : Option String → String
  | some s => s
  | none => ""

/-- Query separator chosen by graph.js: `~url.indexOf('?') ? '&' : '?'`. -/
def qmark (u : String) : String :=
  if strContains u "?" then "&" else "?"

/-- Leading-slash step of `GraphStream.cleanUrl` (graph.js line 84):
`if (url.charAt(0) !== '/' && url.substr(0,4) !== 'http') url = '/' + url`. -/
def addSlash (u : String) : String :=
  if !strStartsWith u "/" && !strStartsWith u "http" then "/" ++ u else u

/-- Access-token appending step of `GraphStream.cleanUrl`
(graph.js lines 87-90): append `access_token=<config token>` when the
config token is truthy and the url has no `access_token=` yet. -/
def addToken (accessToken : Option String) (u : String) : String :=
  if jsStrTruthy accessToken && !strContains u "access_token=" then
    u ++ qmark u ++ "access_token=" ++ optStr accessToken
  else u

/-- Signing-token selection of `GraphStream.cleanUrl` (graph.js lines 79-81):
the value captured by `/access_token=([^&]*)/` when the regex matches,
otherwise the config access token. -/
def sessionTokenOf (accessToken : Option String) (u : String) : Option String :=
  match extractAfter accessTokenChars u.data with
  | some v => some v
  | none => accessToken

/-- Appsecret-proof appending step of `GraphStream.cleanUrl`
(graph.js lines 93-99): when the signing token and the app secret are truthy
and the url has no `appsecret_proof` yet, append
`appsecret_proof=<hex(HMAC-SHA256(appSecret, signing token))>`.  The HMAC of
Node's `crypto` module is the external parameter `hmacSha256Hex`
(key first, message second). -/
def addProof (hmacSha256Hex : String → String → String)
    (sessionTok appSecret : Option String) (u : String) : String :=
  if jsStrTruthy sessionTok && jsStrTruthy appSecret
      && !strContains u "appsecret_proof" then
    u ++ qmark u ++ "appsecret_proof="
      ++ hmacSha256Hex (optStr appSecret) (optStr sessionTok)
  else u

/-- `GraphStream.cleanUrl` (graph.js lines 75-102): trim, select the signing
token from the trimmed url, add a leading slash, append the config access
token, then append the appsecret proof. -/
def cleanUrl (hmacSha256Hex : String → String → String)
    (accessToken appSecret : Option String) (url0 : String) : String :=
  let url1 := jsTrim url0
  addProof hmacSha256Hex (sessionTokenOf accessToken url1) appSecret
    (addToken accessToken (addSlash url1))

/-- `GraphStream.prepareUrl` (graph.js lines 57-65): clean the url, then
prefix `<graphUrl>/v<version>` unless it already starts with `http`. -/
def prepareUrl (hmacSha256Hex : String → String → String)
    (accessToken appSecret : Option String)
    (graphUrl version url0 : String) : String :=
  let u := cleanUrl hmacSha256Hex accessToken appSecret url0
  if !strStartsWith u "http" then graphUrl ++ "/v" ++ version ++ u else u

/-- Error value handed to the completion callback: either a literal
`{message, exception}` object built by graph.js (parse failures and
transport failures) or a remote error object surfaced from `json.error`. -/
inductive CallErr where
  | exc (message : String) (exception : String)
  | remote (j : Js)

/-- Response body as received by `GraphStream.end`: a string, or an already
structured JavaScript value (such as the image marker built by `get`). -/
inductive Body where
  | str (s : String)
  | js (j : Js)

/-- The character with code 123 (an opening curly brace). -/
def openBraceChar : Char := Char.ofNat 123

/-- The character with code 125 (a closing curly brace). -/
def closeBraceChar : Char := Char.ofNat 125

/-- Shape test of `GraphStream.end` (graph.js line 117): the body contains
both an opening and a closing curly brace. -/
def hasJsonShape (s : String) : Bool :=
  s.data.contains openBraceChar && s.data.contains closeBraceChar

/-- Synthetic-data step of `GraphStream.end` (graph.js line 125):
`if (!~body.indexOf('=')) body = 'data=' + body`. -/
def ensureDataKey (s : String) : String :=
  if strContains s "=" then s else "data=" ++ s

/-- Question-mark step of `GraphStream.end` (graph.js line 126):
`if (body.charAt(0) !== '?') body = '?' + body`. -/
def ensureQMark (s : String) : String :=
  if s.data.head? = some '?' then s else "?" ++ s

/-- Hexadecimal digit value of a character, `none` for non-hex characters. -/
def hexVal (c : Char) : Option Nat :=
  if '0' ≤ c ∧ c ≤ '9' then some (c.toNat - '0'.toNat)
  else if 'a' ≤ c ∧ c ≤ 'f' then some (c.toNat - 'a'.toNat + 10)
  else if 'A' ≤ c ∧ c ≤ 'F' then some (c.toNat - 'A'.toNat + 10)
  else none

/-- Percent-decoding of query components as performed by Node's
`querystring` module: `+` becomes a space, `%hh` becomes the character with
that code, and malformed escapes are left in place. -/
def pctDecode : List Char → List Char
  | [] => []
  | '%' :: a :: b :: rest =>
      match hexVal a, hexVal b with
      | some x, some y => Char.ofNat (16 * x + y) :: pctDecode rest
      | _, _ => '%' :: pctDecode (a :: b :: rest)
  | c :: rest => (if c = '+' then ' ' else c) :: pctDecode rest

/-- Split a character list at every occurrence of `sep`. -/
def splitSegs (sep : Char) : List Char → List (List Char)
  | [] => [[]]
  | c :: rest =>
      let r := splitSegs sep rest
      if c = sep then [] :: r
      else
        match r with
        | [] => [[c]]
        | h :: t => (c :: h) :: t

/-- Model of Node's `url.parse(body, true).query` for a body that starts
with `?` (which `GraphStream.end` guarantees): take the characters after the
`?` up to a `#`, split on `&`, split every non-empty segment at its first
`=`, and percent-decode keys and values into string-valued fields. -/
def parseQuery (b : String) : List (String × Js) :=
  let q := (b.data.drop 1).takeWhile (fun c => c ≠ '#')
  (splitSegs '&' q).foldr
    (fun seg acc =>
      if seg.isEmpty then acc
      else
        let k := seg.takeWhile (fun c => c ≠ '=')
        let rest := seg.dropWhile (fun c => c ≠ '=')
        let v : String := if rest.isEmpty then "" else ⟨pctDecode (rest.drop 1)⟩
        ((⟨pctDecode k⟩ : String), Js.str v) :: acc)
    []

/-- Final step of `GraphStream.end` (graph.js lines 139-141):
`if (!err && (json && json.error)) err = json.error; this.callback(err, json)`.
The returned pair is `(err, json)` exactly as handed to the callback. -/
def finishEnd (err : Option CallErr) (json : Option Js) :
    Option CallErr × Option Js :=
  match err with
  | some e => (some e, json)
  | none =>
      match json with
      | none => (none, none)
      | some j =>
          if jsTruthy j then
            match jsProp j "error" with
            | some e => if jsTruthy e then (some (.remote e), some j) else (none, some j)
            | none => (none, some j)
          else (none, some j)

/-- `GraphStream.end` (graph.js lines 109-142).  `parse` models `JSON.parse`
(`Except.error` models a thrown exception carrying its message).  A string
body with both braces goes to `JSON.parse`; any other string body goes
through the query-string fallback; a truthy non-string body is used as the
parsed value directly; a falsy non-string body makes `body.indexOf` throw
inside the `try`, which is caught as the parse error. -/
def endNormalize (parse : String → Except String Js) :
    Body → Option CallErr × Option Js
  | .js j =>
      if jsTruthy j then finishEnd none (some j)
      else
        finishEnd (some (.exc "Error parsing json" "TypeError"))
          (match j with | .null => none | _ => some j)
  | .str s =>
      if hasJsonShape s then
        match parse s with
        | .ok j => finishEnd none (some j)
        | .error e => finishEnd (some (.exc "Error parsing json" e)) none
      else
        finishEnd none (some (.obj (parseQuery (ensureQMark (ensureDataKey s)))))

/-- One delivery from the external `request` transport to the handlers
installed by `GraphStream.get` / `GraphStream.post`: the request callback
with a truthy error, the request callback with a response (content-type,
location header, body), or the `error` event. -/
inductive TransportEvent where
  | cbSuccess (contentType : String) (location : Js) (body : Body)
  | cbFailure (e : String)
  | errorEvent (e : String)

/-- Image marker built by `GraphStream.get` (graph.js lines 162-167):
`{image: true, location: res.headers.location}`. -/
def imageMarker (location : Js) : Js :=
  .obj [("image", .bool true), ("location", location)]

/-- Callback invocations produced by the handlers of `GraphStream.get`
(graph.js lines 149-176) for one delivered transport event. -/
def processGet (parse : String → Except String Js) (ev : TransportEvent) :
    List (Option CallErr × Option Js) :=
  match ev with
  | .cbFailure e => [(some (.exc "Error processing https request" e), none)]
  | .errorEvent e => [(some (.exc "Error processing https request" e), none)]
  | .cbSuccess ct loc body =>
      if strContains ct "image" then
        [endNormalize parse (.js (imageMarker loc))]
      else
        [endNormalize parse body]

/-- Callback invocations produced by the handlers of `GraphStream.post`
(graph.js lines 183-209) for one delivered transport event.  Unlike `get`,
`post` performs no content-type inspection. -/
def processPost (parse : String → Except String Js) (ev : TransportEvent) :
    List (Option CallErr × Option Js) :=
  match ev with
  | .cbFailure e => [(some (.exc "Error processing https request" e), none)]
  | .errorEvent e => [(some (.exc "Error processing https request" e), none)]
  | .cbSuccess _ _ body => [endNormalize parse body]

/-- Caller-supplied request options (`Graph.setOptions`, mapped to the
`request` module).  Keys the constructor overwrites are carried as optional
fields; all other keys are the opaque `extra` passthrough. -/
structure TransportOptions where
  encoding : Option String := none
  method : Option String := none
  uri : Option String := none
  followRedirect : Option Bool := none
  extra : List (String × String) := []
deriving DecidableEq

/-- Request options actually issued for a call. -/
structure ReqOptions where
  encoding : String
  method : String
  uri : String
  followRedirect : Bool
  extra : List (String × String)
deriving DecidableEq

/-- Options assembly of the `GraphStream` constructor (graph.js lines
41-47): copy `graph.getOptions()`, default `encoding` to `utf-8` via
`options.encoding || 'utf-8'` (so a falsy supplied encoding is replaced),
then overwrite `method`, `uri` and `followRedirect` unconditionally. -/
def buildOptions (transport : TransportOptions) (method uri : String) :
    ReqOptions :=
  { encoding :=
      match transport.encoding with
      | some s => if s = "" then "utf-8" else s
      | none => "utf-8"
    method := method
    uri := uri
    followRedirect := false
    extra := transport.extra }

/-- Config access token after the callback of `Graph.extendAccessToken`
(graph.js lines 404-410) runs: `if (!err && !params.access_token)
self.setAccessToken(res.access_token)`.  `cfgTok` is the token before the
call, `paramsTok` is `params.access_token`, `resTok` is
`res.access_token`. -/
def graphExtendTokenAfter (cfgTok paramsTok : Option String)
    (err : Option CallErr) (resTok : Option String) : Option String :=
  if err.isNone && !jsStrTruthy paramsTok then resTok else cfgTok

/-- Config access token after `PromiseGraph.extendAccessToken` (graph.js
lines 538-547) resolves: the promisified `get` rejects on a truthy error, and
on success the code runs `if (params.access_token)
this.setAccessToken(res.access_token)`. -/
def promiseExtendTokenAfter (cfgTok paramsTok : Option String)
    (err : Option CallErr) (resTok : Option String) : Option String :=
  if err.isNone && jsStrTruthy paramsTok then resTok else cfgTok

/-- OAuth token endpoint used by both extend-token variants
(graph.js lines 404 and 542). -/
def extendTokenEndpoint : String := "/oauth/access_token"

/-- Stub for `JSON.parse` that always throws, used to instantiate parser
parameters at concrete inputs. -/
def parseFail0 : String → Except String Js := fun _ => .error "bad"

/-- Stub for `JSON.parse` that returns an object carrying an `error` field,
used to instantiate parser parameters at concrete inputs. -/
def parseErrObj : String → Except String Js :=
  fun _ => .ok (Js.obj [("error", Js.str "boom")])

/-- Concrete stand-in for the external hex HMAC-SHA256, recording key and
message so statements about which token is signed are visible. -/
def hmacStub : String → String → String :=
  fun k t => "h(" ++ k ++ "," ++ t ++ ")"

/-- Concrete stand-in for the external hex HMAC-SHA256 with a fixed
hex-looking output. -/
def hmacFixed : String → String → String := fun _ _ => "ff"

/-- Caller-supplied options that try to override every fixed field. -/
def transportOptions0 : TransportOptions :=
  { encoding := some "latin1", method := some "PUT", uri := some "http://x"
    followRedirect := some true, extra := [("timeout", "30000")] }

theorem contains_cons_of_head_ne {a c : Char} (pt : List Char) (l : List Char)
    (h : a ≠ c) : listContains (a :: pt) (c :: l) = listContains (a :: pt) l := by
  simp [listContains, List.isPrefixOf, h]

theorem countOccs_cons_of_head_ne {a c : Char} (pt : List Char) (l : List Char)
    (h : a ≠ c) : countOccs (a :: pt) (c :: l) = countOccs (a :: pt) l := by
  simp [countOccs, List.isPrefixOf, h]

theorem extractAfter_eq_some_contains {pat : List Char} {l : List Char} {v : String}
    (h : extractAfter pat l = some v) : listContains pat l = true := by
  induction l with
  | nil => simp [extractAfter] at h
  | cons c rest ih =>
      by_cases hp : pat.isPrefixOf (c :: rest)
      · simp [listContains, hp]
      · rw [extractAfter, if_neg hp] at h
        simp [listContains, hp, ih h]

theorem extractAfter_eq_none_of_not_contains {pat : List Char} {l : List Char}
    (h : listContains pat l = false) : extractAfter pat l = none := by
  induction l with
  | nil => rfl
  | cons c rest ih =>
      rw [listContains] at h
      simp only [Bool.or_eq_false_iff] at h
      rw [extractAfter, if_neg (by simp [h.1]), ih h.2]

theorem prefixSepEq {pat : List Char} {c : Char} (hc : c ∉ pat)
    (x y : List Char) : pat <+: x ++ c :: y ↔ pat <+: x := by
  constructor
  · intro h
    rcases le_or_lt pat.length x.length with hle | hlt
    · exact List.prefix_of_prefix_length_le h (List.prefix_append x (c :: y)) hle
    · exfalso
      have hx : x <+: pat :=
        List.prefix_of_prefix_length_le (List.prefix_append x (c :: y)) h
          (Nat.le_of_lt hlt)
      obtain ⟨t, ht⟩ := hx
      obtain ⟨u, hu⟩ := h
      rw [← ht, List.append_assoc, List.append_right_inj] at hu
      cases t with
      | nil =>
          rw [List.append_nil] at ht
          rw [← ht] at hlt
          exact Nat.lt_irrefl _ hlt
      | cons d t' =>
          have hd : d = c := by
            have := congrArg List.head? hu
            simpa using this
          apply hc
          rw [← ht, ← hd]
          simp
  · intro h
    exact h.trans (List.prefix_append x (c :: y))

theorem countOccs_append_sep {pat : List Char} {c : Char} (hpat : pat ≠ [])
    (hc : c ∉ pat) (x y : List Char) :
    countOccs pat (x ++ c :: y) = countOccs pat x + countOccs pat y := by
  induction x with
  | nil =>
      have hp : pat.isPrefixOf (c :: y) = false := by
        rw [Bool.eq_false_iff]
        intro h
        rw [List.isPrefixOf_iff_prefix] at h
        have h2 : pat <+: [] ++ c :: y := by simpa using h
        rw [prefixSepEq hc [] y] at h2
        exact hpat (List.prefix_nil.mp h2)
      simp [countOccs, hp]
  | cons d x' ih =>
      have hcond : pat.isPrefixOf (d :: (x' ++ c :: y)) = pat.isPrefixOf (d :: x') := by
        cases hb : pat.isPrefixOf (d :: x') with
        | false =>
            rw [Bool.eq_false_iff]
            intro h
            rw [List.isPrefixOf_iff_prefix] at h
            have h2 : pat <+: (d :: x') ++ c :: y := by simpa using h
            rw [prefixSepEq hc (d :: x') y] at h2
            rw [← List.isPrefixOf_iff_prefix, hb] at h2
            exact Bool.false_ne_true h2
        | true =>
            rw [List.isPrefixOf_iff_prefix] at hb ⊢
            show pat <+: (d :: x') ++ c :: y
            exact hb.trans (List.prefix_append (d :: x') (c :: y))
      rw [List.cons_append, countOccs, countOccs, hcond, ih]
      omega

theorem countOccs_eq_zero_iff {pat : List Char} (hpat : pat ≠ []) (l : List Char) :
    countOccs pat l = 0 ↔ listContains pat l = false := by
  induction l with
  | nil => simp [countOccs, listContains, hpat]
  | cons c rest ih =>
      rw [countOccs, listContains]
      cases hp : pat.isPrefixOf (c :: rest) with
      | false => simpa [hp] using ih
      | true => simp [hp]

theorem countOccs_atp_self_append (z : List Char) :
    countOccs accessTokenChars (accessTokenChars ++ z) =
      1 + countOccs accessTokenChars z := by
  simp +decide [accessTokenChars, countOccs, List.isPrefixOf]

theorem countOccs_atp_proofLabel_append (z : List Char) :
    countOccs accessTokenChars ("appsecret_proof=".data ++ z) =
      countOccs accessTokenChars z := by
  simp +decide [accessTokenChars, countOccs, List.isPrefixOf]

theorem finishEnd_none_some_snd (j : Js) : (finishEnd none (some j)).2 = some j := by
  unfold finishEnd
  cases hT : jsTruthy j
  · simp [hT]
  · cases hE : jsProp j "error"
    · simp [hT, hE]
    · rename_i e
      cases hTe : jsTruthy e <;> simp [hT, hE, hTe]

theorem finishEnd_none_some_shape (j : Js) :
    finishEnd none (some j) = (none, some j) ∨
    ∃ e, finishEnd none (some j) = (some (CallErr.remote e), some j) := by
  unfold finishEnd
  cases hT : jsTruthy j
  · left; simp [hT]
  · cases hE : jsProp j "error"
    · left; simp [hT, hE]
    · rename_i e
      cases hTe : jsTruthy e
      · left; simp [hT, hE, hTe]
      · right; exact ⟨e, by simp [hT, hE, hTe]⟩

theorem finishEnd_none_some_ne_exc (j : Js) (m x : String) :
    (finishEnd none (some j)).1 ≠ some (CallErr.exc m x) := by
  rcases finishEnd_none_some_shape j with h | ⟨e, h⟩ <;> rw [h] <;> simp

/-- C8: for every string body, JSON parsing is attempted iff the body
contains both braces; a parse failure is captured into the error
`message = "Error parsing json"` with the exception as cause, and without
the brace shape the result never depends on the parser and never carries a
thrown-exception error. -/
theorem json_parse_gated (parse : String → Except String Js) (s : String) :
    (hasJsonShape s = true →
      endNormalize parse (.str s) =
        match parse s with
        | .ok j => finishEnd none (some j)
        | .error e => (some (.exc "Error parsing json" e), none)) ∧
    (hasJsonShape s = false →
      (∀ parse2, endNormalize parse (.str s) = endNormalize parse2 (.str s)) ∧
      (∀ m x, (endNormalize parse (.str s)).1 ≠ some (CallErr.exc m x))) := by
  constructor
  · intro h
    simp only [endNormalize, h, if_true]
    cases hp : parse s <;> simp [hp, finishEnd]
  · intro h
    constructor
    · intro parse2
      simp only [endNormalize, h, Bool.false_eq_true, if_false]
    · intro m x
      simp only [endNormalize, h, Bool.false_eq_true, if_false]
      exact finishEnd_none_some_ne_exc _ m x

theorem json_parse_gated_witness :
    endNormalize parseFail0 (.str "\x7b\x7d") =
      (some (CallErr.exc "Error parsing json" "bad"), none) := by
  have h := (json_parse_gated parseFail0 "\x7b\x7d").1 (by decide)
  exact h.trans (by rfl)

/-- C9: a string body without the JSON object shape goes through the
query-string fallback (synthetic `data` key when no `=`, leading `?`
ensured, parsed into a mapping), and `normalize("true")` yields the success
result whose mapping is `data ↦ "true"`. -/
theorem query_fallback (parse : String → Except String Js) (s : String) :
    (hasJsonShape s = false →
      (endNormalize parse (.str s)).2 =
        some (.obj (parseQuery (ensureQMark (ensureDataKey s)))) ∧
      (strContains s "=" = false → ensureDataKey s = "data=" ++ s)) ∧
    endNormalize parse (.str "true") =
      (none, some (.obj [("data", .str "true")])) := by
  constructor
  · intro h
    constructor
    · simp only [endNormalize, h, Bool.false_eq_true, if_false]
      exact finishEnd_none_some_snd _
    · intro h2
      simp [ensureDataKey, h2]
  · rfl

theorem query_fallback_witness :
    (endNormalize parseFail0 (.str "a")).2 =
      some (.obj [("data", .str "a")]) := by
  have h := ((query_fallback parseFail0 "a").1 (by decide)).1
  exact h.trans (by rfl)

/-- C1 (amended): per delivery at least one of error and result is non-null;
a thrown-exception error (parse failure) is delivered with a null result;
but a remote-API error (an `error` key in the normalized body) is delivered
together with the non-null parsed body, not instead of it. -/
theorem callback_outcome_amended (parse : String → Except String Js) (s : String) :
    ((endNormalize parse (.str s)).1.isSome = true ∨
      (endNormalize parse (.str s)).2.isSome = true) ∧
    (∀ m x, (endNormalize parse (.str s)).1 = some (CallErr.exc m x) →
      (endNormalize parse (.str s)).2 = none) ∧
    (∀ j, (endNormalize parse (.str s)).1 = some (CallErr.remote j) →
      (endNormalize parse (.str s)).2.isSome = true) := by
  cases hs : hasJsonShape s
  · have he : endNormalize parse (.str s) =
        finishEnd none (some (.obj (parseQuery (ensureQMark (ensureDataKey s))))) := by
      simp only [endNormalize, hs, Bool.false_eq_true, if_false]
    rcases finishEnd_none_some_shape
        (Js.obj (parseQuery (ensureQMark (ensureDataKey s)))) with h | ⟨e, h⟩ <;>
      rw [he, h]
    · exact ⟨Or.inr rfl, fun m x hmx => by simp at hmx, fun j hj => rfl⟩
    · exact ⟨Or.inr rfl, fun m x hmx => by simp at hmx, fun j hj => rfl⟩
  · cases hp : parse s with
    | ok j =>
        have he : endNormalize parse (.str s) = finishEnd none (some j) := by
          simp only [endNormalize, hs, if_true, hp]
        rcases finishEnd_none_some_shape j with h | ⟨e, h⟩ <;> rw [he, h]
        · exact ⟨Or.inr rfl, fun m x hmx => by simp at hmx, fun j' hj => rfl⟩
        · exact ⟨Or.inr rfl, fun m x hmx => by simp at hmx, fun j' hj => rfl⟩
    | error e =>
        have he : endNormalize parse (.str s) =
            (some (.exc "Error parsing json" e), none) := by
          simp only [endNormalize, hs, if_true, hp]
          rfl
        rw [he]
        exact ⟨Or.inl rfl, fun m x hmx => rfl, fun j hj => by simp at hj⟩

theorem callback_outcome_amended_witness :
    (endNormalize parseFail0 (.str "\x7b\x7d")).2 = none :=
  (callback_outcome_amended parseFail0 "\x7b\x7d").2.1
    "Error parsing json" "bad" (by rfl)

/-- C1 (counterexample): a body normalizing to an object with an `error`
key makes the callback receive the remote error AND the parsed body — both
arguments are non-null, contradicting "never both". -/
theorem callback_outcome_counterexample :
    endNormalize parseErrObj (.str "\x7b\x7d") =
      (some (.remote (.str "boom")), some (.obj [("error", .str "boom")])) ∧
    (endNormalize parseErrObj (.str "\x7b\x7d")).1.isSome = true ∧
    (endNormalize parseErrObj (.str "\x7b\x7d")).2.isSome = true :=
  ⟨rfl, rfl, rfl⟩

/-- C2: for every delivered transport event (request-callback success,
request-callback failure, or `error` event) the handlers installed by
`GraphStream.get` and `GraphStream.post` invoke the user callback exactly
once. -/
theorem callback_exactly_once (parse : String → Except String Js)
    (ev : TransportEvent) :
    (processGet parse ev).length = 1 ∧ (processPost parse ev).length = 1 := by
  cases ev with
  | cbFailure e => exact ⟨rfl, rfl⟩
  | errorEvent e => exact ⟨rfl, rfl⟩
  | cbSuccess ct loc body =>
      refine ⟨?_, rfl⟩
      cases h : strContains ct "image" <;> simp [processGet, h]

/-- C5 (amended): only GET short-circuits a content-type containing
`"image"` to the image marker; POST passes the raw body to normalization
regardless of content-type. -/
theorem image_shortcircuit_amended (parse : String → Except String Js)
    (ct : String) (loc : Js) (body : Body) :
    (strContains ct "image" = true →
      processGet parse (.cbSuccess ct loc body) =
        [(none, some (imageMarker loc))]) ∧
    (strContains ct "image" = false →
      processGet parse (.cbSuccess ct loc body) = [endNormalize parse body]) ∧
    processPost parse (.cbSuccess ct loc body) = [endNormalize parse body] := by
  refine ⟨?_, ?_, rfl⟩
  · intro h
    simp only [processGet, h, if_true]
    rfl
  · intro h
    simp only [processGet, h, Bool.false_eq_true, if_false]

theorem image_shortcircuit_amended_witness :
    processGet parseFail0 (.cbSuccess "image/png" (.str "L") (.str "x=1")) =
      [(none, some (imageMarker (.str "L")))] ∧
    processPost parseFail0 (.cbSuccess "text/plain" (.str "L") (.str "x=1")) =
      [endNormalize parseFail0 (.str "x=1")] :=
  ⟨(image_shortcircuit_amended parseFail0 "image/png" (.str "L") (.str "x=1")).1
      (by decide),
   (image_shortcircuit_amended parseFail0 "text/plain" (.str "L") (.str "x=1")).2.2⟩

/-- C5 (counterexample): a POST whose transport succeeds with content-type
`image/png` does not deliver the image marker — the raw body goes through
normalization instead. -/
theorem image_shortcircuit_counterexample :
    processPost parseFail0 (.cbSuccess "image/png" (.str "L") (.str "x=1")) =
      [(none, some (.obj [("x", .str "1")]))] ∧
    processPost parseFail0 (.cbSuccess "image/png" (.str "L") (.str "x=1")) ≠
      [(none, some (imageMarker (.str "L")))] := by
  constructor
  · rfl
  · intro h
    have h2 : ([(none, some (Js.obj [("x", Js.str "1")]))] :
          List (Option CallErr × Option Js)) =
        [(none, some (imageMarker (Js.str "L")))] :=
      (rfl : processPost parseFail0
          (.cbSuccess "image/png" (.str "L") (.str "x=1")) =
        [(none, some (.obj [("x", .str "1")]))]).symm.trans h
    simp +decide [imageMarker] at h2

/-- C10: the issued request options carry the pipeline's method, url and
`followRedirect = false` regardless of caller-supplied transport options,
while `encoding` defaults to `utf-8` exactly when the caller supplied no
(truthy) encoding; all other caller options pass through. -/
theorem options_fixed_fields (t : TransportOptions) (m u : String) :
    (buildOptions t m u).method = m ∧
    (buildOptions t m u).uri = u ∧
    (buildOptions t m u).followRedirect = false ∧
    (t.encoding = none → (buildOptions t m u).encoding = "utf-8") ∧
    (∀ s, t.encoding = some s → s ≠ "" → (buildOptions t m u).encoding = s) ∧
    (buildOptions t m u).extra = t.extra := by
  refine ⟨rfl, rfl, rfl, ?_, ?_, rfl⟩
  · intro h
    simp [buildOptions, h]
  · intro s h hs
    simp [buildOptions, h, hs]

theorem options_fixed_fields_witness :
    (buildOptions transportOptions0 "GET" "https://g/v2.9/me").method = "GET" ∧
    (buildOptions transportOptions0 "GET" "https://g/v2.9/me").followRedirect
      = false ∧
    (buildOptions transportOptions0 "GET" "https://g/v2.9/me").encoding
      = "latin1" := by
  have h := options_fixed_fields transportOptions0 "GET" "https://g/v2.9/me"
  exact ⟨h.1, h.2.2.1, h.2.2.2.2.1 "latin1" rfl (by decide)⟩

/-- C6: the callback-based `Graph.extendAccessToken` refreshes the config
token on success only when `params.access_token` is absent, while the
promise facade `PromiseGraph.extendAccessToken` does so only when
`params.access_token` is present — the update conditions are inverted, so
at the input `params.access_token = "T"`, response token `"NEW"`, the two
variants disagree. -/
theorem extendAccessToken_update_divergence :
    graphExtendTokenAfter (some "OLD") (some "T") none (some "NEW") = some "OLD" ∧
    promiseExtendTokenAfter (some "OLD") (some "T") none (some "NEW") = some "NEW" ∧
    graphExtendTokenAfter (some "OLD") none none (some "NEW") = some "NEW" ∧
    promiseExtendTokenAfter (some "OLD") none none (some "NEW") = some "OLD" ∧
    extendTokenEndpoint = "/oauth/access_token" :=
  ⟨rfl, rfl, rfl, rfl, rfl⟩

theorem accessTokenChars_eq : "access_token=".data = accessTokenChars := rfl

theorem addSlash_data (v : String) :
    (addSlash v).data = v.data ∨ (addSlash v).data = '/' :: v.data := by
  unfold addSlash
  split
  · right
    simp [String.data_append]
  · left
    rfl

theorem listContains_atp_slashCons (l : List Char) :
    listContains accessTokenChars ('/' :: l) = listContains accessTokenChars l := by
  show listContains ('a' :: ['c', 'c', 'e', 's', 's', '_', 't', 'o', 'k', 'e', 'n', '='])
      ('/' :: l) = _
  exact contains_cons_of_head_ne _ l (by decide)

theorem listContains_proof_slashCons (l : List Char) :
    listContains "appsecret_proof".data ('/' :: l) =
      listContains "appsecret_proof".data l := by
  rw [show "appsecret_proof".data = 'a' :: "ppsecret_proof".data from rfl]
  exact contains_cons_of_head_ne _ l (by decide)

theorem strContains_addSlash_atp (v : String) :
    strContains (addSlash v) "access_token=" = strContains v "access_token=" := by
  unfold strContains
  rw [accessTokenChars_eq]
  rcases addSlash_data v with h | h <;> rw [h]
  rw [listContains_atp_slashCons]

theorem strContains_addSlash_proof (v : String) :
    strContains (addSlash v) "appsecret_proof" = strContains v "appsecret_proof" := by
  unfold strContains
  rcases addSlash_data v with h | h <;> rw [h]
  rw [listContains_proof_slashCons]

theorem strContains_addSlash_q (v : String) :
    strContains (addSlash v) "?" = strContains v "?" := by
  unfold strContains
  rcases addSlash_data v with h | h <;> rw [h]
  rw [show ("?".data : List Char) = ['?'] from rfl]
  exact contains_cons_of_head_ne _ v.data (by decide)

theorem addToken_of_contains (tok : Option String) (u : String)
    (h : strContains u "access_token=" = true) : addToken tok u = u := by
  unfold addToken
  rw [h]
  simp

theorem sessionTokenOf_of_extract {tok : Option String} {u : String} {X : String}
    (h : extractAfter accessTokenChars u.data = some X) :
    sessionTokenOf tok u = some X := by
  unfold sessionTokenOf
  rw [h]

theorem cleanUrl_embedded_token (hm : String → String → String)
    (cfgTok : Option String) (s X u : String)
    (hX : extractAfter accessTokenChars (jsTrim u).data = some X)
    (hXne : X ≠ "") (hs : s ≠ "")
    (hnp : strContains (jsTrim u) "appsecret_proof" = false) :
    cleanUrl hm cfgTok (some s) u =
      addSlash (jsTrim u) ++ qmark (addSlash (jsTrim u))
        ++ "appsecret_proof=" ++ hm s X := by
  show addProof hm (sessionTokenOf cfgTok (jsTrim u)) (some s)
      (addToken cfgTok (addSlash (jsTrim u))) = _
  rw [sessionTokenOf_of_extract hX]
  have hct : strContains (jsTrim u) "access_token=" = true := by
    unfold strContains
    rw [accessTokenChars_eq]
    exact extractAfter_eq_some_contains hX
  have hct2 : strContains (addSlash (jsTrim u)) "access_token=" = true := by
    rw [strContains_addSlash_atp]
    exact hct
  rw [addToken_of_contains _ _ hct2]
  have hnp2 : strContains (addSlash (jsTrim u)) "appsecret_proof" = false := by
    rw [strContains_addSlash_proof]
    exact hnp
  unfold addProof
  rw [hnp2]
  simp [jsStrTruthy, hXne, hs, optStr]

theorem isPrefixOf_append_ext {pat l z : List Char}
    (h : pat.isPrefixOf l = true) : pat.isPrefixOf (l ++ z) = true := by
  rw [List.isPrefixOf_iff_prefix] at h ⊢
  exact h.trans (List.prefix_append l z)

theorem listContains_append_left {pat : List Char} (x y : List Char)
    (h : listContains pat x = true) : listContains pat (x ++ y) = true := by
  induction x with
  | nil =>
      have hpat : pat = [] := by
        cases pat with
        | nil => rfl
        | cons a pt => simp [listContains] at h
      subst hpat
      cases y with
      | nil => rfl
      | cons c rest => simp [listContains, List.isPrefixOf]
  | cons c rest ih =>
      rw [listContains] at h
      rw [List.cons_append, listContains]
      rcases (Bool.or_eq_true _ _).mp h with h1 | h2
      · have := isPrefixOf_append_ext (z := y) h1
        rw [List.cons_append] at this
        simp [this]
      · simp [ih h2]

theorem listContains_append_right {pat : List Char} (x y : List Char)
    (h : listContains pat y = true) : listContains pat (x ++ y) = true := by
  induction x with
  | nil => simpa using h
  | cons c rest ih =>
      rw [List.cons_append, listContains, ih]
      simp

theorem strContains_q_append_left (x y : String)
    (h : strContains x "?" = true) : strContains (x ++ y) "?" = true := by
  unfold strContains at h ⊢
  rw [String.data_append]
  exact listContains_append_left _ _ h

theorem strContains_q_append_qmark (x : String) :
    strContains (x ++ "?") "?" = true := by
  unfold strContains
  rw [String.data_append]
  exact listContains_append_right x.data _ (by rfl)

theorem count_u3_list (a tail : List Char) (sepc : Char)
    (hsep : sepc ∉ accessTokenChars)
    (h2 : countOccs accessTokenChars a = 0)
    (ht : countOccs accessTokenChars tail = 0) :
    countOccs accessTokenChars (a ++ sepc :: (accessTokenChars ++ tail)) = 1 := by
  rw [countOccs_append_sep (by decide) hsep, h2, countOccs_atp_self_append, ht]

theorem rest_count_zero (tokS d : String)
    (ht : countOccs accessTokenChars tokS.data = 0)
    (hd : countOccs accessTokenChars d.data = 0) :
    countOccs accessTokenChars
      (tokS.data ++ ("&appsecret_proof=" ++ d).data) = 0 := by
  have h1 : ("&appsecret_proof=" ++ d).data =
      '&' :: ("appsecret_proof=".data ++ d.data) := by
    rw [String.data_append]
    rfl
  rw [h1, countOccs_append_sep (by decide) (by decide), ht,
      countOccs_atp_proofLabel_append, hd]

theorem u3_data_eq (u2 sepS tokS rest : String) (sepc : Char)
    (hsd : sepS.data = [sepc]) :
    (u2 ++ sepS ++ "access_token=" ++ tokS ++ rest).data =
      u2.data ++ sepc :: (accessTokenChars ++ (tokS.data ++ rest.data)) := by
  simp [String.data_append, hsd, accessTokenChars]

theorem u3_data_eq_norest (u2 sepS tokS : String) (sepc : Char)
    (hsd : sepS.data = [sepc]) :
    (u2 ++ sepS ++ "access_token=" ++ tokS).data =
      u2.data ++ sepc :: (accessTokenChars ++ tokS.data) := by
  simp [String.data_append, hsd, accessTokenChars]

theorem addProof_token_spec (hm : String → String → String)
    (tokS : String) (appSecret : Option String) (u2 sepS : String) (sepc : Char)
    (hsd : sepS.data = [sepc]) (hsep : sepc ∉ accessTokenChars)
    (hq3 : strContains (u2 ++ sepS ++ "access_token=" ++ tokS) "?" = true)
    (h2 : countOccs accessTokenChars u2.data = 0)
    (htokc : countOccs accessTokenChars tokS.data = 0)
    (hhm : ∀ k t, countOccs accessTokenChars (hm k t).data = 0) :
    strCount (addProof hm (some tokS) appSecret
        (u2 ++ sepS ++ "access_token=" ++ tokS)) "access_token=" = 1 ∧
    ∃ rest, addProof hm (some tokS) appSecret
          (u2 ++ sepS ++ "access_token=" ++ tokS) =
        u2 ++ sepS ++ "access_token=" ++ tokS ++ rest ∧
        (rest = "" ∨ ∃ d, rest = "&appsecret_proof=" ++ d) := by
  unfold addProof
  cases hfire : (jsStrTruthy (some tokS) && jsStrTruthy appSecret &&
      !strContains (u2 ++ sepS ++ "access_token=" ++ tokS) "appsecret_proof") with
  | false =>
      simp only [hfire, Bool.false_eq_true, if_false]
      constructor
      · unfold strCount
        rw [accessTokenChars_eq, u3_data_eq_norest u2 sepS tokS sepc hsd]
        exact count_u3_list _ _ _ hsep h2 htokc
      · refine ⟨"", ?_, Or.inl rfl⟩
        rw [String.append_empty]
  | true =>
      simp only [hfire, if_true]
      have hq : qmark (u2 ++ sepS ++ "access_token=" ++ tokS) = "&" := by
        unfold qmark
        rw [hq3]
        rfl
      rw [hq]
      have hassoc : u2 ++ sepS ++ "access_token=" ++ tokS ++ "&" ++ "appsecret_proof="
            ++ hm (optStr appSecret) (optStr (some tokS)) =
          u2 ++ sepS ++ "access_token=" ++ tokS
            ++ ("&appsecret_proof=" ++ hm (optStr appSecret) (optStr (some tokS))) := by
        apply String.ext
        simp [String.data_append]
      rw [hassoc]
      constructor
      · unfold strCount
        rw [accessTokenChars_eq,
          u3_data_eq u2 sepS tokS
            ("&appsecret_proof=" ++ hm (optStr appSecret) (optStr (some tokS))) sepc hsd]
        exact count_u3_list _ _ _ hsep h2
          (rest_count_zero tokS _ htokc (hhm (optStr appSecret) (optStr (some tokS))))
      · exact ⟨"&appsecret_proof=" ++ hm (optStr appSecret) (optStr (some tokS)), rfl,
          Or.inr ⟨hm (optStr appSecret) (optStr (some tokS)), rfl⟩⟩

/-- C4: for every path whose first `access_token=` parameter carries the
non-empty value `X`, with the app secret `s` set and no `appsecret_proof`
parameter yet, the built url is the path with
`appsecret_proof = hmacSha256Hex s X` appended — the HMAC is keyed by the
app secret over the embedded token `X`, whatever the config token is. -/
theorem appsecret_proof_is_hmac_of_embedded (hm : String → String → String)
    (cfgTok : Option String) (s X u : String)
    (hX : extractAfter accessTokenChars (jsTrim u).data = some X)
    (hXne : X ≠ "") (hs : s ≠ "")
    (hnp : strContains (jsTrim u) "appsecret_proof" = false) :
    cleanUrl hm cfgTok (some s) u =
      addSlash (jsTrim u) ++ qmark (addSlash (jsTrim u))
        ++ "appsecret_proof=" ++ hm s X :=
  cleanUrl_embedded_token hm cfgTok s X u hX hXne hs hnp

theorem appsecret_proof_is_hmac_of_embedded_witness :
    cleanUrl hmacStub (some "zzz") (some "sec") "/me?access_token=abc" =
      "/me?access_token=abc&appsecret_proof=h(sec,abc)" := by
  have h := appsecret_proof_is_hmac_of_embedded hmacStub (some "zzz") "sec" "abc"
      "/me?access_token=abc" (by decide) (by decide) (by decide) (by decide)
  exact h.trans (by decide)

/-- C3 (counterexample): with `config.appSecret` set, `config.accessToken`
unset, and an embedded `access_token=abc` in the path, an
`appsecret_proof` IS appended — the claimed gate on `config.accessToken`
does not hold. -/
theorem proof_gate_counterexample :
    cleanUrl hmacStub none (some "sec") "/me?access_token=abc" =
      "/me?access_token=abc&appsecret_proof=h(sec,abc)" ∧
    strContains (cleanUrl hmacStub none (some "sec") "/me?access_token=abc")
      "appsecret_proof" = true :=
  ⟨by decide, by decide⟩

/-- C3 (amended): the presence check for `appsecret_proof` is gated on the
signing token — the token embedded in the path when one is present,
falling back to the config token — so with a non-empty embedded token,
the app secret set and the config token unset, the proof is appended and
its HMAC input is the embedded token. -/
theorem proof_gate_uses_session_token (hm : String → String → String)
    (s X u : String)
    (hX : extractAfter accessTokenChars (jsTrim u).data = some X)
    (hXne : X ≠ "") (hs : s ≠ "")
    (hnp : strContains (jsTrim u) "appsecret_proof" = false) :
    cleanUrl hm none (some s) u =
      addSlash (jsTrim u) ++ qmark (addSlash (jsTrim u))
        ++ "appsecret_proof=" ++ hm s X :=
  cleanUrl_embedded_token hm none s X u hX hXne hs hnp

theorem proof_gate_uses_session_token_witness :
    cleanUrl hmacStub none (some "s2") " me?access_token=tok " =
      "/me?access_token=tok&appsecret_proof=h(s2,tok)" := by
  have h := proof_gate_uses_session_token hmacStub "s2" "tok"
      " me?access_token=tok " (by decide) (by decide) (by decide) (by decide)
  exact h.trans (by decide)

/-- C7: for every path without an `access_token` parameter, when the config
token is set (and neither the token value nor the HMAC output smuggles in
the characters `access_token=`), the built url is the slash-adjusted
trimmed path followed by `?`/`&` (depending on whether the path already
had a query string), then `access_token=<config token>`, then at most an
`&appsecret_proof=...` suffix — and `access_token=` occurs in the result
exactly once. -/
theorem config_token_appended_once (hm : String → String → String)
    (tok : String) (appSecret : Option String) (p : String)
    (htok : tok ≠ "")
    (hp : strContains (jsTrim p) "access_token=" = false)
    (htokc : strCount tok "access_token=" = 0)
    (hhm : ∀ k t, strCount (hm k t) "access_token=" = 0) :
    strCount (cleanUrl hm (some tok) appSecret p) "access_token=" = 1 ∧
    ∃ rest, cleanUrl hm (some tok) appSecret p =
        addSlash (jsTrim p)
          ++ (if strContains (jsTrim p) "?" then "&" else "?")
          ++ "access_token=" ++ tok ++ rest ∧
        (rest = "" ∨ ∃ d, rest = "&appsecret_proof=" ++ d) := by
  have hp' : listContains accessTokenChars (jsTrim p).data = false := by
    have h := hp
    unfold strContains at h
    rwa [accessTokenChars_eq] at h
  have hsess : sessionTokenOf (some tok) (jsTrim p) = some tok := by
    unfold sessionTokenOf
    rw [extractAfter_eq_none_of_not_contains hp']
  have hct2 : strContains (addSlash (jsTrim p)) "access_token=" = false := by
    rw [strContains_addSlash_atp]
    exact hp
  have haddtok : addToken (some tok) (addSlash (jsTrim p)) =
      addSlash (jsTrim p) ++ qmark (addSlash (jsTrim p)) ++ "access_token=" ++ tok := by
    unfold addToken
    rw [hct2]
    simp [jsStrTruthy, htok, optStr]
  have hqm : qmark (addSlash (jsTrim p)) =
      (if strContains (jsTrim p) "?" then "&" else "?") := by
    unfold qmark
    rw [strContains_addSlash_q]
  have hclean : cleanUrl hm (some tok) appSecret p =
      addProof hm (some tok) appSecret
        (addSlash (jsTrim p)
          ++ (if strContains (jsTrim p) "?" then "&" else "?")
          ++ "access_token=" ++ tok) := by
    show addProof hm (sessionTokenOf (some tok) (jsTrim p)) appSecret
        (addToken (some tok) (addSlash (jsTrim p))) = _
    rw [hsess, haddtok, hqm]
  rw [hclean]
  have h2 : countOccs accessTokenChars (addSlash (jsTrim p)).data = 0 := by
    have h := hct2
    unfold strContains at h
    rw [accessTokenChars_eq] at h
    exact (countOccs_eq_zero_iff (by decide) _).mpr h
  have htokc' : countOccs accessTokenChars tok.data = 0 := by
    have h := htokc
    unfold strCount at h
    rwa [accessTokenChars_eq] at h
  have hhm' : ∀ k t, countOccs accessTokenChars (hm k t).data = 0 := by
    intro k t
    have h := hhm k t
    unfold strCount at h
    rwa [accessTokenChars_eq] at h
  cases hq : strContains (jsTrim p) "?" with
  | true =>
      simp only [hq, if_true]
      have hu2q : strContains (addSlash (jsTrim p)) "?" = true := by
        rw [strContains_addSlash_q]
        exact hq
      exact addProof_token_spec hm tok appSecret _ "&" '&' rfl (by decide)
        (strContains_q_append_left _ _
          (strContains_q_append_left _ _ (strContains_q_append_left _ _ hu2q)))
        h2 htokc' hhm'
  | false =>
      simp only [hq, Bool.false_eq_true, if_false]
      exact addProof_token_spec hm tok appSecret _ "?" '?' rfl (by decide)
        (strContains_q_append_left _ _
          (strContains_q_append_left _ _ (strContains_q_append_qmark _)))
        h2 htokc' hhm'

theorem config_token_appended_once_witness :
    strCount (cleanUrl hmacFixed (some "T") (some "S") "me") "access_token=" = 1 ∧
    cleanUrl hmacFixed (some "T") (some "S") "me" =
      "/me?access_token=T&appsecret_proof=ff" := by
  have h := config_token_appended_once hmacFixed "T" (some "S") "me"
    (by decide) (by decide) (by decide) (fun _ _ => rfl)
  exact ⟨h.1, by decide⟩

end FbGraph
